import Mathlib

/-!
Verification of the Trade-Arena repository against its natural-language
specification.  The repository's checked-in sources are the two dashboard
frontends (`src/frontend`, `src/_Investment_v2/frontend`); the orchestration
core (Cycle Scheduler, State Machine Engine) is described only by the spec,
so those two components are modelled from the spec's words, while every
frontend operation below is a direct shallow embedding of the TypeScript
source it is named after.
-/

namespace Scheduler

/-- Modelled from the spec: the Cycle Scheduler's distributed lock
(`tryAcquireCycleSlot` / `releaseCycleSlot`, spec §4.1) is not under `src/`;
only the spec describes it.  The Coordination Store holds at most one
(fencing token, expiry) pair; each worker remembers the token of its latest
acquisition; `nextToken` is the fresh-token counter; `conflicts` counts
logged release conflicts. -/
structure LockState where
  store : Option (Nat × Nat)
  nextToken : Nat
  held : Nat → Option Nat
  conflicts : Nat

/-- Initial coordination-store state: no lock held, no worker believes it
holds a token. -/
def LockState.init : LockState :=
  { store := none, nextToken := 0, held := fun _ => none, conflicts := 0 }

/-- Modelled from the spec: `tryAcquireCycleSlot(cadenceSeconds) ->
LockToken | Busy` takes a time-bounded lock with a fencing token, written at
acquisition.  A live (non-expired) lock makes the call return `Busy`
(second component `false`); an absent or stale lock is (re)acquired with a
fresh token valid until `now + cadence`. -/
def tryAcquireCycleSlot (s : LockState) (w now cadence : Nat) : LockState × Bool :=
  match s.store with
  | some (_, exp) =>
    if now < exp then (s, false)
    else
      ({ store := some (s.nextToken, now + cadence),
         nextToken := s.nextToken + 1,
         held := fun w' => if w' = w then some s.nextToken else s.held w',
         conflicts := s.conflicts }, true)
  | none =>
      ({ store := some (s.nextToken, now + cadence),
         nextToken := s.nextToken + 1,
         held := fun w' => if w' = w then some s.nextToken else s.held w',
         conflicts := s.conflicts }, true)

/-- Modelled from the spec: `releaseCycleSlot(token)` releases only if the
caller's token matches the currently stored token; otherwise it no-ops and
logs a conflict. -/
def releaseCycleSlot (s : LockState) (w tok : Nat) : LockState :=
  match s.store with
  | some (t, _) =>
    if t = tok then
      { store := none, nextToken := s.nextToken,
        held := fun w' => if w' = w then none else s.held w',
        conflicts := s.conflicts }
    else { s with conflicts := s.conflicts + 1 }
  | none => { s with conflicts := s.conflicts + 1 }

/-- One scheduler call from one worker. -/
inductive LockOp where
  | tryAcquire (w now cadence : Nat)
  | release (w tok : Nat)

/-- Interleaved execution of scheduler calls from any number of workers. -/
def stepLock (s : LockState) : LockOp → LockState
  | .tryAcquire w now cadence => (tryAcquireCycleSlot s w now cadence).1
  | .release w tok => releaseCycleSlot s w tok

/-- Fold of `stepLock` over a call trace. -/
def runLock (ops : List LockOp) : LockState :=
  ops.foldl stepLock LockState.init

/-- Worker `w` holds a valid (non-stale) lock at instant `now`: its
remembered token matches the stored fencing token and the lock has not
expired. -/
def holdsValid (s : LockState) (now w : Nat) : Bool :=
  match s.store, s.held w with
  | some (t, exp), some t' => t = t' && now < exp
  | _, _ => false

/-- Every remembered or stored token was issued by the counter, and no two
workers remember the same token. -/
def LockInv (s : LockState) : Prop :=
  (∀ w t, s.held w = some t → t < s.nextToken) ∧
  (∀ t exp, s.store = some (t, exp) → t < s.nextToken) ∧
  (∀ w w' t, s.held w = some t → s.held w' = some t → w = w')

theorem lockInv_init : LockInv LockState.init := by
  refine ⟨?_, ?_, ?_⟩
  · intro w t h; simp [LockState.init] at h
  · intro t exp h; simp [LockState.init] at h
  · intro w w' t h h'; simp [LockState.init] at h

theorem lockInv_step (s : LockState) (op : LockOp) (h : LockInv s) :
    LockInv (stepLock s op) := by
  obtain ⟨store, nextToken, held, conflicts⟩ := s
  obtain ⟨hheld, hstore, hinj⟩ := h
  simp only at hheld hstore hinj
  cases op with
  | tryAcquire w now cadence =>
    rcases store with _ | ⟨t, exp⟩
    · simp only [stepLock, tryAcquireCycleSlot]
      refine ⟨?_, ?_, ?_⟩
      · intro w' t' h'
        simp only at h'
        by_cases hw : w' = w
        · simp [hw] at h'; dsimp only; omega
        · simp only [hw, if_false] at h'
          exact Nat.lt_succ_of_lt (hheld _ _ h')
      · intro t' exp' h'
        simp only [Option.some.injEq, Prod.mk.injEq] at h'
        dsimp only
        omega
      · intro a b t' ha hb
        simp only at ha hb
        by_cases haw : a = w <;> by_cases hbw : b = w
        · rw [haw, hbw]
        · simp only [haw, if_true, hbw, if_false, Option.some.injEq] at ha hb
          have := hheld _ _ hb; omega
        · simp only [haw, if_false, hbw, if_true, Option.some.injEq] at ha hb
          have := hheld _ _ ha; omega
        · simp only [haw, hbw, if_false] at ha hb
          exact hinj _ _ _ ha hb
    · by_cases hlt : now < exp
      · simp only [stepLock, tryAcquireCycleSlot, hlt, if_true]
        exact ⟨hheld, hstore, hinj⟩
      · simp only [stepLock, tryAcquireCycleSlot, hlt, if_false]
        refine ⟨?_, ?_, ?_⟩
        · intro w' t' h'
          simp only at h'
          by_cases hw : w' = w
          · simp [hw] at h'; dsimp only; omega
          · simp only [hw, if_false] at h'
            exact Nat.lt_succ_of_lt (hheld _ _ h')
        · intro t' exp' h'
          simp only [Option.some.injEq, Prod.mk.injEq] at h'
          dsimp only
          omega
        · intro a b t' ha hb
          simp only at ha hb
          by_cases haw : a = w <;> by_cases hbw : b = w
          · rw [haw, hbw]
          · simp only [haw, if_true, hbw, if_false, Option.some.injEq] at ha hb
            have := hheld _ _ hb; omega
          · simp only [haw, if_false, hbw, if_true, Option.some.injEq] at ha hb
            have := hheld _ _ ha; omega
          · simp only [haw, hbw, if_false] at ha hb
            exact hinj _ _ _ ha hb
  | release w tok =>
    rcases store with _ | ⟨t, exp⟩
    · simp only [stepLock, releaseCycleSlot]
      exact ⟨hheld, by simp, hinj⟩
    · by_cases htok : t = tok
      · simp only [stepLock, releaseCycleSlot, htok, if_true]
        refine ⟨?_, ?_, ?_⟩
        · intro w' t' h'
          simp only at h'
          by_cases hw : w' = w
          · simp [hw] at h'
          · simp only [hw, if_false] at h'
            exact hheld _ _ h'
        · intro t' exp' h'
          simp at h'
        · intro a b t' ha hb
          simp only at ha hb
          by_cases haw : a = w <;> by_cases hbw : b = w
          · rw [haw, hbw]
          · simp [haw] at ha
          · simp [hbw] at hb
          · simp only [haw, hbw, if_false] at ha hb
            exact hinj _ _ _ ha hb
      · simp only [stepLock, releaseCycleSlot, htok, if_false]
        exact ⟨hheld, hstore, hinj⟩

theorem lockInv_run (ops : List LockOp) : LockInv (runLock ops) := by
  have : ∀ (l : List LockOp) (s : LockState), LockInv s → LockInv (l.foldl stepLock s) := by
    intro l
    induction l with
    | nil => intro s hs; exact hs
    | cons op rest ih => intro s hs; exact ih _ (lockInv_step s op hs)
  exact this ops LockState.init lockInv_init

/-- C1: For every sequence of `tryAcquireCycleSlot` and `releaseCycleSlot`
calls across any number of workers, at most one worker holds a valid
(non-stale) lock at any instant (two valid holders are the same worker),
and `releaseCycleSlot` releases the lock only when the caller's fencing
token matches the currently stored token — on a mismatch it leaves the
stored lock and every worker's held token unchanged and only logs a
conflict. -/
theorem lock_mutual_exclusion_and_fenced_release
    (ops : List LockOp) (now w w' : Nat)
    (s : LockState) (wr tok t exp : Nat)
    (h1 : holdsValid (runLock ops) now w = true)
    (h2 : holdsValid (runLock ops) now w' = true)
    (hs : s.store = some (t, exp)) (hne : t ≠ tok) :
    w = w' ∧
    (releaseCycleSlot s wr tok).store = s.store ∧
    (releaseCycleSlot s wr tok).held = s.held ∧
    (releaseCycleSlot s wr tok).conflicts = s.conflicts + 1 := by
  obtain ⟨-, -, hinj⟩ := lockInv_run ops
  constructor
  · unfold holdsValid at h1 h2
    rcases hst : (runLock ops).store with _ | ⟨t0, exp0⟩
    · rw [hst] at h1; simp at h1
    · rw [hst] at h1 h2
      rcases hw1 : (runLock ops).held w with _ | tw
      · rw [hw1] at h1; simp at h1
      · rcases hw2 : (runLock ops).held w' with _ | tw'
        · rw [hw2] at h2; simp at h2
        · rw [hw1] at h1
          rw [hw2] at h2
          simp only [Bool.and_eq_true, decide_eq_true_eq] at h1 h2
          have htw : t0 = tw := h1.1
          have htw' : t0 = tw' := h2.1
          exact hinj w w' t0 (htw ▸ hw1) (htw' ▸ hw2)
  · unfold releaseCycleSlot
    simp only [hs]
    rw [if_neg hne]
    exact ⟨rfl, rfl, rfl⟩

/-- Witness for C1 at a concrete trace: worker 0 acquires at time 0 and
holds the only valid lock; a release with the wrong token 5 no-ops. -/
theorem lock_mutual_exclusion_and_fenced_release_witness :
    holdsValid (runLock [LockOp.tryAcquire 0 0 10]) 0 0 = true ∧
    ((0 : Nat) = 0 ∧
      (releaseCycleSlot (runLock [LockOp.tryAcquire 0 0 10]) 1 5).store
          = (runLock [LockOp.tryAcquire 0 0 10]).store ∧
      (releaseCycleSlot (runLock [LockOp.tryAcquire 0 0 10]) 1 5).held
          = (runLock [LockOp.tryAcquire 0 0 10]).held ∧
      (releaseCycleSlot (runLock [LockOp.tryAcquire 0 0 10]) 1 5).conflicts
          = (runLock [LockOp.tryAcquire 0 0 10]).conflicts + 1) :=
  ⟨by decide,
    lock_mutual_exclusion_and_fenced_release [LockOp.tryAcquire 0 0 10] 0 0 0
      (runLock [LockOp.tryAcquire 0 0 10]) 1 5 0 10
      (by decide) (by decide) (by decide) (by decide)⟩

end Scheduler

namespace Engine

/-- Modelled from the spec: one stage of the State Machine Engine
(spec §4.2), which is not under `src/`.  A stage's producing call is
abstracted as a function from the attempt index to the produced output
(the retry hint makes each attempt distinct), and `validate` is the
stage's output-schema check. -/
structure Stage where
  name : String
  producer : Nat → Nat
  validate : Nat → Bool

/-- Terminal status of a cycle run by the engine. -/
inductive CycleStatus where
  | completed
  | failed
deriving DecidableEq

/-- Audit events written by the engine: one `transition` per schema-valid
stage output, one `schemaViolation` when a stage exhausts its retry
bound. -/
inductive EngineEvent where
  | transition (stage : String) (output : Nat)
  | schemaViolation (stage : String) (attempts : Nat)
deriving DecidableEq

/-- Modelled from the spec: the producing call for one stage is retried up
to `retries` times after an invalid output (at most `retries + 1` calls);
the first schema-valid output is returned, `none` if every attempt fails
validation. -/
def attemptStage (st : Stage) (retries : Nat) : Option Nat :=
  (List.range (retries + 1)).findSome?
    (fun i => if st.validate (st.producer i) then some (st.producer i) else none)

/-- What one engine cycle produced: the stages whose producing call was
invoked, the audit trail, and the terminal status. -/
structure EngineResult where
  invoked : List String
  audit : List EngineEvent
  status : CycleStatus

/-- Modelled from the spec: the engine advances to stage N+1 only if stage
N's output parses against its schema; on exhausting the retry bound it
records the schema violation in the audit trail, marks the cycle `failed`
and halts without invoking any later stage. -/
def runEngine (retries : Nat) : List Stage → EngineResult
  | [] => { invoked := [], audit := [], status := .completed }
  | st :: rest =>
    match attemptStage st retries with
    | some out =>
      let r := runEngine retries rest
      { invoked := st.name :: r.invoked,
        audit := EngineEvent.transition st.name out :: r.audit,
        status := r.status }
    | none =>
      { invoked := [st.name],
        audit := [EngineEvent.schemaViolation st.name (retries + 1)],
        status := .failed }

theorem attemptStage_eq_none (st : Stage) (retries : Nat)
    (hfail : ∀ i, i ≤ retries → st.validate (st.producer i) = false) :
    attemptStage st retries = none := by
  unfold attemptStage
  rw [List.findSome?_eq_none_iff]
  intro i hi
  rw [List.mem_range] at hi
  rw [hfail i (Nat.lt_succ_iff.mp hi)]
  simp

/-- C2: for every cycle and every stage, if the stage's output fails schema
validation on every attempt within the retry bound, then no later stage is
ever invoked: the invoked stages are exactly the earlier (valid) ones plus
the failing stage, the cycle terminates `failed`, and the audit trail
records the schema violation. -/
theorem engine_halts_failed_on_schema_violation
    (pre post : List Stage) (st : Stage) (retries : Nat)
    (hpre : ∀ s ∈ pre, (attemptStage s retries).isSome = true)
    (hfail : ∀ i, i ≤ retries → st.validate (st.producer i) = false) :
    (runEngine retries (pre ++ st :: post)).status = .failed ∧
    (runEngine retries (pre ++ st :: post)).invoked = pre.map Stage.name ++ [st.name] ∧
    EngineEvent.schemaViolation st.name (retries + 1)
      ∈ (runEngine retries (pre ++ st :: post)).audit := by
  induction pre with
  | nil =>
    simp only [List.nil_append, List.map_nil]
    rw [runEngine, attemptStage_eq_none st retries hfail]
    exact ⟨rfl, rfl, by simp⟩
  | cons s rest ih =>
    have hs : (attemptStage s retries).isSome = true := hpre s (by simp)
    obtain ⟨out, hout⟩ := Option.isSome_iff_exists.mp hs
    have hrest : ∀ s' ∈ rest, (attemptStage s' retries).isSome = true := by
      intro s' hs'
      exact hpre s' (List.mem_cons_of_mem _ hs')
    obtain ⟨ih1, ih2, ih3⟩ := ih hrest
    simp only [List.cons_append]
    rw [runEngine, hout]
    refine ⟨ih1, ?_, ?_⟩
    · simp only [List.map_cons, List.cons_append]
      rw [ih2]
    · exact List.mem_cons_of_mem _ ih3

/-- Concrete scanning stage whose first output already validates. -/
def scanningStage : Stage :=
  { name := "SCANNING", producer := fun i => i + 1, validate := fun o => decide (0 < o) }

/-- Concrete planning stage whose output never validates. -/
def badPlanningStage : Stage :=
  { name := "PLANNING", producer := fun i => i, validate := fun _ => false }

/-- Concrete downstream stage that must never be invoked. -/
def analyzingStage : Stage :=
  { name := "ANALYZING", producer := fun i => i, validate := fun _ => true }

/-- Witness for C2 at a concrete pipeline: SCANNING succeeds, PLANNING
fails validation on all three attempts, ANALYZING is never invoked. -/
theorem engine_halts_failed_on_schema_violation_witness :
    (∀ s ∈ [scanningStage], (attemptStage s 2).isSome = true) ∧
    ((runEngine 2 ([scanningStage] ++ badPlanningStage :: [analyzingStage])).status
        = CycleStatus.failed ∧
      (runEngine 2 ([scanningStage] ++ badPlanningStage :: [analyzingStage])).invoked
        = [scanningStage].map Stage.name ++ [badPlanningStage.name] ∧
      EngineEvent.schemaViolation badPlanningStage.name 3
        ∈ (runEngine 2 ([scanningStage] ++ badPlanningStage :: [analyzingStage])).audit) :=
  ⟨by decide,
    engine_halts_failed_on_schema_violation [scanningStage] [analyzingStage]
      badPlanningStage 2 (by decide) (by decide)⟩

end Engine

namespace Frontend

/-- Characters JS treats as whitespace for `parseInt` / `trim` (the
frontends only ever pass ASCII input). -/
def isJsSpace (c : Char) : Bool :=
  c = ' ' || c = '\t' || c = '\n' || c = '\r'

/-- Value of a run of decimal digits, consumed left to right. -/
def decValue (acc : Nat) : List Char → Nat
  | [] => acc
  | c :: cs => decValue (acc * 10 + (c.toNat - '0'.toNat)) cs

/-- Hexadecimal digit predicate for the `0x` branch of `parseInt`. -/
def isHexDigitCh (c : Char) : Bool :=
  c.isDigit || ('a' ≤ c && c ≤ 'f') || ('A' ≤ c && c ≤ 'F')

/-- Value of one hexadecimal digit. -/
def hexDigitVal (c : Char) : Nat :=
  if c.isDigit then c.toNat - '0'.toNat
  else if 'a' ≤ c && c ≤ 'f' then c.toNat - 'a'.toNat + 10
  else c.toNat - 'A'.toNat + 10

/-- Value of a run of hexadecimal digits, consumed left to right. -/
def hexValue (acc : Nat) : List Char → Nat
  | [] => acc
  | c :: cs => hexValue (acc * 16 + hexDigitVal c) cs

/-- JS `parseInt(s)` with the default radix: skip leading whitespace, read
an optional sign, then either a `0x`/`0X`-prefixed hexadecimal literal or a
run of leading decimal digits; `NaN` (here `none`) when no digit follows. -/
def jsParseInt (s : String) : Option Int :=
  let cs := s.data.dropWhile isJsSpace
  let signed : Int × List Char :=
    match cs with
    | '-' :: rest => (-1, rest)
    | '+' :: rest => (1, rest)
    | _ => (1, cs)
  match signed.2 with
  | '0' :: c :: rest =>
    if c = 'x' || c = 'X' then
      let ds := rest.takeWhile isHexDigitCh
      if ds.isEmpty then none else some (signed.1 * (hexValue 0 ds : Nat))
    else
      some (signed.1 * (decValue 0 (('0' :: c :: rest).takeWhile Char.isDigit) : Nat))
  | body =>
    let ds := body.takeWhile Char.isDigit
    if ds.isEmpty then none else some (signed.1 * (decValue 0 ds : Nat))

/-- JS `String.prototype.trim()` on the ASCII inputs used here. -/
def jsTrim (s : String) : String :=
  ⟨((s.data.dropWhile isJsSpace).reverse.dropWhile isJsSpace).reverse⟩

/-- JS `String.prototype.includes(c)` for a single character. -/
def jsIncludes (s : String) (c : Char) : Bool :=
  s.data.contains c

end Frontend

namespace RunControl

open Frontend

/-- What `handleStart` in `RunControl.tsx` does with the two text inputs:
either the `onStart(cadence, runLimit)` callback is invoked, or a
validation error message is shown. -/
inductive StartAction where
  | invoked (cadence : Int) (runLimit : Option Int)
  | errorMsg (msg : String)
deriving DecidableEq

/-- `handleStart` from
`src/_Investment_v2/frontend/src/components/agent/RunControl.tsx:18-35`:
`parseInt` the cadence string, reject `NaN`, values `< 2` and strings
containing a dot; then, when the run-limit string is non-blank, `parseInt`
it and reject `NaN`, values `< 1` and strings containing a dot; only then
invoke `onStart`. -/
def handleStart (cadenceStr runLimitStr : String) : StartAction :=
  match jsParseInt cadenceStr with
  | none => .errorMsg "Cadence must be an integer >= 2"
  | some cadence =>
    if cadence < 2 || jsIncludes cadenceStr '.' then
      .errorMsg "Cadence must be an integer >= 2"
    else if jsTrim runLimitStr ≠ "" then
      match jsParseInt runLimitStr with
      | none => .errorMsg "Runs must be an integer >= 1"
      | some limit =>
        if limit < 1 || jsIncludes runLimitStr '.' then
          .errorMsg "Runs must be an integer >= 1"
        else .invoked cadence (some limit)
    else .invoked cadence none

end RunControl

namespace ControlPanel

open Frontend

/-- The two pieces of `ControlPanel.tsx` state that determine the cycle
count passed to `onStart`. -/
structure PanelState where
  cycleMode : Int
  customCycles : Int
deriving DecidableEq

/-- Initial state: `useState(1)` for the mode, `useState(10)` for the
custom count. -/
def initialPanel : PanelState := { cycleMode := 1, customCycles := 10 }

/-- User interactions that mutate the two fields: the three preset buttons
(`CYCLE_PRESETS` values 1, 240, -1) and typing into the custom-cycles
number input. -/
inductive PanelAction where
  | selectOnce
  | selectFullDay
  | selectCustom
  | setCustomCycles (input : String)

/-- State update for each interaction; the custom input handler is
`setCustomCycles(Math.max(1, parseInt(e.target.value) || 1))` from
`src/frontend/src/components/ControlPanel.tsx:142`. -/
def applyAction (p : PanelState) : PanelAction → PanelState
  | .selectOnce => { p with cycleMode := 1 }
  | .selectFullDay => { p with cycleMode := 240 }
  | .selectCustom => { p with cycleMode := -1 }
  | .setCustomCycles input =>
    let parsed : Int :=
      match jsParseInt input with
      | some n => if n = 0 then 1 else n
      | none => 1
    { p with customCycles := max 1 parsed }

/-- `handleStart` from `src/frontend/src/components/ControlPanel.tsx:57-64`:
the cycle count passed in the `onStart` config. -/
def handleStart (p : PanelState) : Int :=
  if p.cycleMode = -1 then p.customCycles else p.cycleMode

/-- Cycle count `handleStart` would pass after any interaction sequence. -/
def startCyclesAfter (acts : List PanelAction) : Int :=
  handleStart (acts.foldl applyAction initialPanel)

theorem panel_inv (acts : List PanelAction) :
    1 ≤ (acts.foldl applyAction initialPanel).customCycles ∧
    ((acts.foldl applyAction initialPanel).cycleMode = 1 ∨
      (acts.foldl applyAction initialPanel).cycleMode = 240 ∨
      (acts.foldl applyAction initialPanel).cycleMode = -1) := by
  have step : ∀ (p : PanelState) (a : PanelAction),
      1 ≤ p.customCycles ∧ (p.cycleMode = 1 ∨ p.cycleMode = 240 ∨ p.cycleMode = -1) →
      1 ≤ (applyAction p a).customCycles ∧
        ((applyAction p a).cycleMode = 1 ∨ (applyAction p a).cycleMode = 240 ∨
          (applyAction p a).cycleMode = -1) := by
    intro p a h
    cases a with
    | selectOnce => exact ⟨h.1, Or.inl rfl⟩
    | selectFullDay => exact ⟨h.1, Or.inr (Or.inl rfl)⟩
    | selectCustom => exact ⟨h.1, Or.inr (Or.inr rfl)⟩
    | setCustomCycles input =>
      refine ⟨?_, h.2⟩
      simp only [applyAction]
      exact le_max_left 1 _
  have : ∀ (l : List PanelAction) (p : PanelState),
      1 ≤ p.customCycles ∧ (p.cycleMode = 1 ∨ p.cycleMode = 240 ∨ p.cycleMode = -1) →
      1 ≤ (l.foldl applyAction p).customCycles ∧
        ((l.foldl applyAction p).cycleMode = 1 ∨ (l.foldl applyAction p).cycleMode = 240 ∨
          (l.foldl applyAction p).cycleMode = -1) := by
    intro l
    induction l with
    | nil => intro p hp; exact hp
    | cons a rest ih => intro p hp; exact ih _ (step p a hp)
  exact this acts initialPanel ⟨by norm_num [initialPanel], Or.inl rfl⟩

end ControlPanel

/-- C4: the start callback is invoked only with an (integral) cadence at
least 2 and a run limit that is absent or at least 1; and the cycles
control always passes a cycle count of at least 1, whatever the user
typed. -/
theorem start_controls_validated :
    (∀ c r cad lim, RunControl.handleStart c r = RunControl.StartAction.invoked cad lim →
      2 ≤ cad ∧ ∀ l, lim = some l → 1 ≤ l) ∧
    (∀ acts, 1 ≤ ControlPanel.startCyclesAfter acts) := by
  constructor
  · intro c r cad lim h
    unfold RunControl.handleStart at h
    rcases hc : Frontend.jsParseInt c with _ | cadence
    · rw [hc] at h; exact absurd h (by simp)
    · rw [hc] at h
      dsimp only at h
      by_cases h2 : cadence < 2 || Frontend.jsIncludes c '.'
      · rw [if_pos h2] at h; exact absurd h (by simp)
      · rw [if_neg h2] at h
        have hcad : 2 ≤ cadence := by
          rcases Bool.or_eq_false_iff.mp (Bool.eq_false_iff.mpr h2) with ⟨hlt, -⟩
          simpa using of_decide_eq_false hlt
        by_cases htrim : Frontend.jsTrim r ≠ ""
        · rw [if_pos htrim] at h
          rcases hr : Frontend.jsParseInt r with _ | limit
          · rw [hr] at h; exact absurd h (by simp)
          · rw [hr] at h
            dsimp only at h
            by_cases h1 : limit < 1 || Frontend.jsIncludes r '.'
            · rw [if_pos h1] at h; exact absurd h (by simp)
            · rw [if_neg h1] at h
              simp only [RunControl.StartAction.invoked.injEq] at h
              obtain ⟨rfl, rfl⟩ := h
              refine ⟨hcad, ?_⟩
              intro l hl
              obtain rfl : limit = l := by simpa using hl
              rcases Bool.or_eq_false_iff.mp (Bool.eq_false_iff.mpr h1) with ⟨hlt, -⟩
              simpa using of_decide_eq_false hlt
        · rw [if_neg htrim] at h
          simp only [RunControl.StartAction.invoked.injEq] at h
          obtain ⟨rfl, rfl⟩ := h
          exact ⟨hcad, fun l hl => by simp at hl⟩
  · intro acts
    obtain ⟨hcustom, hmode⟩ := ControlPanel.panel_inv acts
    unfold ControlPanel.startCyclesAfter ControlPanel.handleStart
    rcases hmode with hm | hm | hm <;> rw [hm] <;> simp [hcustom]

/-- Witness for C4: cadence "10" with a blank run-limit invokes the start
callback with cadence 10 and no limit, and a custom-cycles input of "0"
still yields a cycle count of at least 1. -/
theorem start_controls_validated_witness :
    RunControl.handleStart "10" "" = RunControl.StartAction.invoked 10 none ∧
    (2 ≤ (10 : Int) ∧ ∀ l, (none : Option Int) = some l → 1 ≤ l) ∧
    1 ≤ ControlPanel.startCyclesAfter
        [ControlPanel.PanelAction.selectCustom, ControlPanel.PanelAction.setCustomCycles "0"] :=
  ⟨by decide,
    start_controls_validated.1 "10" "" 10 none (by decide),
    start_controls_validated.2
      [ControlPanel.PanelAction.selectCustom, ControlPanel.PanelAction.setCustomCycles "0"]⟩

namespace UseAgent

/-- `TokenUsage` from `src/_Investment_v2/frontend/src/types/agent.ts`;
fields are optional here because the handler guards each with `|| 0`. -/
structure TokenUsage where
  prompt_tokens : Option Nat
  completion_tokens : Option Nat
  total_tokens : Option Nat
deriving DecidableEq

/-- `AgentEvent` from `src/_Investment_v2/frontend/src/types/agent.ts`. -/
structure AgentEvent where
  type : String
  source : String
  content : String
  timestamp : Option String
  usage : Option TokenUsage
deriving DecidableEq

/-- One `{prompt, completion, total}` counter triple of the
`tokenCounts` state in `useAgent.ts`. -/
structure SourceCounts where
  prompt : Nat
  completion : Nat
  total : Nat
deriving DecidableEq

/-- The `tokenCounts` state: one triple per counted source. -/
structure TokenCounts where
  manager : SourceCounts
  quant : SourceCounts
deriving DecidableEq

/-- The all-zero counter triple. -/
def zeroCounts : SourceCounts := { prompt := 0, completion := 0, total := 0 }

/-- The reset value of `tokenCounts`. -/
def zeroTokenCounts : TokenCounts := { manager := zeroCounts, quant := zeroCounts }

/-- A stored `TradingSession`; only its identity matters here. -/
structure TradingSession where
  id : String
deriving DecidableEq

/-- The `useAgent` hook state the claims are about: `events`,
`tokenCounts`, `activeSession`, `isRunning`. -/
structure HookState where
  events : List AgentEvent
  tokenCounts : TokenCounts
  activeSession : Option TradingSession
  isRunning : Bool
deriving DecidableEq

/-- `clearStorage` from `useAgent.ts:57-66`: empties the events, zeroes the
token counters and drops the active session (and removes the LocalStorage
keys); `isRunning` is not touched. -/
def clearStorage (s : HookState) : HookState :=
  { s with events := [], tokenCounts := zeroTokenCounts, activeSession := none }

/-- A parsed WebSocket message as the `ws.onmessage` handler
(`useAgent.ts:137-194`) distinguishes them: a `status_update` whose
`content.is_running` may or may not be a boolean, or an agent event. -/
inductive WsMessage where
  | statusUpdate (isRunningField : Option Bool)
  | agentEvent (e : AgentEvent)

/-- Effects of handling one message besides the state update. -/
structure MessageEffects where
  fetchHistoryCalled : Bool
deriving DecidableEq

/-- Add one usage record to a counter triple; a missing field contributes
`|| 0`, i.e. zero. -/
def addUsage (c : SourceCounts) (u : TokenUsage) : SourceCounts :=
  { prompt := c.prompt + u.prompt_tokens.getD 0,
    completion := c.completion + u.completion_tokens.getD 0,
    total := c.total + u.total_tokens.getD 0 }

/-- The `ws.onmessage` handler from `useAgent.ts:137-194`: a
`status_update` with a boolean `is_running` only toggles `isRunning` and
refreshes the history on a running→stopped edge; any other message is
appended to `events` with a local receive timestamp, and when it carries a
`usage` whose source is `manager` or `quant`, the matching counters are
incremented. -/
def onMessage (s : HookState) (now : String) : WsMessage → HookState × MessageEffects
  | .statusUpdate f =>
    match f with
    | some nowRunning =>
      ({ s with isRunning := nowRunning },
        { fetchHistoryCalled := s.isRunning && !nowRunning })
    | none => (s, { fetchHistoryCalled := false })
  | .agentEvent e =>
    let eventWithTime := { e with timestamp := some now }
    let s1 := { s with events := s.events ++ [eventWithTime] }
    let s2 :=
      match e.usage with
      | some u =>
        if e.source = "manager" then
          { s1 with tokenCounts := { s1.tokenCounts with manager := addUsage s1.tokenCounts.manager u } }
        else if e.source = "quant" then
          { s1 with tokenCounts := { s1.tokenCounts with quant := addUsage s1.tokenCounts.quant u } }
        else s1
      | none => s1
    (s2, { fetchHistoryCalled := false })

/-- Outcome of the `/agent/run-once` POST as `runOnce` branches on it. -/
inductive RunOnceResponse where
  | ok
  | errorStatus (message : String)
  | networkFailure
deriving DecidableEq

/-- Structured result the `runOnce` caller observes; every branch returns a
value, none throws. -/
inductive RunOnceOutcome where
  | started
  | rejected (message : String)
  | unreachable
deriving DecidableEq

/-- `runOnce` from `useAgent.ts:267-293`: optimistically sets `isRunning`,
POSTs `/agent/run-once`; on `status: 'error'` it shows the rejection toast
and leaves the stored state alone; on success it clears the stored state
for the new run; a network failure is caught and reverts `isRunning`. -/
def runOnce (s : HookState) : RunOnceResponse → HookState × RunOnceOutcome
  | .ok => (clearStorage { s with isRunning := true }, .started)
  | .errorStatus msg => ({ s with isRunning := true }, .rejected msg)
  | .networkFailure => ({ s with isRunning := false }, .unreachable)

/-- One cycle of a stored session as `loadSession` reads it: a sequence
number and its events. -/
structure SessionCycle where
  cycle_number : Int
  events : List AgentEvent
deriving DecidableEq

/-- The timestamp polyfill `loadSession` maps over each cycle's events:
`timestamp: e.timestamp || new Date().toISOString()`. -/
def polyfillTs (now : String) (e : AgentEvent) : AgentEvent :=
  match e.timestamp with
  | some t => if t = "" then { e with timestamp := some now } else e
  | none => { e with timestamp := some now }

/-- The `data.cycles.sort((a, b) => a.cycle_number - b.cycle_number)` call
in `loadSession` (`useAgent.ts:305`); JS `Array.prototype.sort` is a
stable sort and this comparator orders by ascending `cycle_number`. -/
def sortCycles (cycles : List SessionCycle) : List SessionCycle :=
  cycles.mergeSort (fun a b => a.cycle_number ≤ b.cycle_number)

/-- The event list `loadSession` (`useAgent.ts:295-334`) builds from a
stored session: cycles sorted by sequence number, each cycle's events
timestamp-polyfilled and concatenated. -/
def loadSessionEvents (now : String) (cycles : List SessionCycle) : List AgentEvent :=
  (sortCycles cycles).flatMap (fun c => c.events.map (polyfillTs now))

end UseAgent

namespace UseAgent

/-- The hook's initial state (the `useState` initializers in
`useAgent.ts:13-21`). -/
def initialHookState : HookState :=
  { events := [], tokenCounts := zeroTokenCounts, activeSession := none, isRunning := false }

/-- Pointwise order on one counter triple. -/
def countsLe (a b : SourceCounts) : Prop :=
  a.prompt ≤ b.prompt ∧ a.completion ≤ b.completion ∧ a.total ≤ b.total

/-- Pointwise order on the whole `tokenCounts` state. -/
def tokenCountsLe (a b : TokenCounts) : Prop :=
  countsLe a.manager b.manager ∧ countsLe a.quant b.quant

/-- C3: when run-once is requested while a cycle is already in flight, the
caller receives a structured rejection (never an exception), and the stored
events, token counts and active session are left unchanged; on acceptance
they are cleared. -/
theorem runOnce_rejection_preserves_state (s : HookState) (msg : String) :
    (runOnce s (.errorStatus msg)).2 = RunOnceOutcome.rejected msg ∧
    (runOnce s (.errorStatus msg)).1.events = s.events ∧
    (runOnce s (.errorStatus msg)).1.tokenCounts = s.tokenCounts ∧
    (runOnce s (.errorStatus msg)).1.activeSession = s.activeSession ∧
    (runOnce s .ok).1.events = [] ∧
    (runOnce s .ok).1.tokenCounts = zeroTokenCounts ∧
    (runOnce s .ok).1.activeSession = none ∧
    (runOnce s .networkFailure).1.events = s.events ∧
    (runOnce s .networkFailure).1.tokenCounts = s.tokenCounts ∧
    (runOnce s .networkFailure).1.activeSession = s.activeSession :=
  ⟨rfl, rfl, rfl, rfl, rfl, rfl, rfl, rfl, rfl, rfl⟩

/-- C10: a `status_update` message mutates only the `isRunning` flag,
triggers a history refresh exactly on a running→stopped edge, and leaves
the events list, token counts and active session untouched. -/
theorem statusUpdate_only_toggles_isRunning (s : HookState) (now : String) (f : Option Bool) :
    (onMessage s now (.statusUpdate f)).1.events = s.events ∧
    (onMessage s now (.statusUpdate f)).1.tokenCounts = s.tokenCounts ∧
    (onMessage s now (.statusUpdate f)).1.activeSession = s.activeSession ∧
    (onMessage s now (.statusUpdate f)).1.isRunning = f.getD s.isRunning ∧
    (onMessage s now (.statusUpdate f)).2.fetchHistoryCalled
      = (s.isRunning && !(f.getD s.isRunning)) := by
  cases f <;> simp [onMessage]

/-- C8: processing a WebSocket message never decreases any token counter;
the counters change only for agent events whose source is `manager` or
`quant` and that carry a usage record; missing usage fields count as zero;
and `clearStorage` is what resets the counters to zero. -/
theorem token_counters_monotone (s : HookState) (now : String) (m : WsMessage)
    (e : AgentEvent) (u : TokenUsage) (c : SourceCounts) :
    tokenCountsLe s.tokenCounts ((onMessage s now m).1.tokenCounts) ∧
    (e.source ≠ "manager" → e.source ≠ "quant" →
      (onMessage s now (.agentEvent e)).1.tokenCounts = s.tokenCounts) ∧
    (e.usage = none → (onMessage s now (.agentEvent e)).1.tokenCounts = s.tokenCounts) ∧
    (e.usage = some u → e.source = "manager" →
      (onMessage s now (.agentEvent e)).1.tokenCounts.manager = addUsage s.tokenCounts.manager u ∧
      (onMessage s now (.agentEvent e)).1.tokenCounts.quant = s.tokenCounts.quant) ∧
    (e.usage = some u → e.source = "quant" →
      (onMessage s now (.agentEvent e)).1.tokenCounts.quant = addUsage s.tokenCounts.quant u ∧
      (onMessage s now (.agentEvent e)).1.tokenCounts.manager = s.tokenCounts.manager) ∧
    addUsage c { prompt_tokens := none, completion_tokens := none, total_tokens := none } = c ∧
    (clearStorage s).tokenCounts = zeroTokenCounts := by
  refine ⟨?_, ?_, ?_, ?_, ?_, ?_, rfl⟩
  · cases m with
    | statusUpdate f =>
      cases f <;> exact ⟨⟨le_refl _, le_refl _, le_refl _⟩, ⟨le_refl _, le_refl _, le_refl _⟩⟩
    | agentEvent ev =>
      rcases hu : ev.usage with _ | u'
      · simp only [onMessage, hu]
        exact ⟨⟨le_refl _, le_refl _, le_refl _⟩, ⟨le_refl _, le_refl _, le_refl _⟩⟩
      · simp only [onMessage, hu]
        by_cases hm : ev.source = "manager"
        · simp only [hm, if_true]
          exact ⟨⟨Nat.le_add_right _ _, Nat.le_add_right _ _, Nat.le_add_right _ _⟩,
            ⟨le_refl _, le_refl _, le_refl _⟩⟩
        · simp only [hm, if_false]
          by_cases hq : ev.source = "quant"
          · simp only [hq, if_true]
            exact ⟨⟨le_refl _, le_refl _, le_refl _⟩,
              ⟨Nat.le_add_right _ _, Nat.le_add_right _ _, Nat.le_add_right _ _⟩⟩
          · simp only [hq, if_false]
            exact ⟨⟨le_refl _, le_refl _, le_refl _⟩, ⟨le_refl _, le_refl _, le_refl _⟩⟩
  · intro hm hq
    simp [onMessage, hm, hq]
    rcases e.usage with _ | u' <;> simp
  · intro hu
    simp [onMessage, hu]
  · intro hu hm
    simp [onMessage, hu, hm]
  · intro hu hq
    have hm : e.source ≠ "manager" := by rw [hq]; decide
    simp [onMessage, hu, hq, hm]
  · cases c
    simp [addUsage]

/-- Concrete usage record with a missing completion field. -/
def sampleUsage : TokenUsage :=
  { prompt_tokens := some 5, completion_tokens := none, total_tokens := some 7 }

/-- Concrete manager-sourced agent event carrying `sampleUsage`. -/
def managerEvent : AgentEvent :=
  { type := "thought", source := "manager", content := "c", timestamp := none,
    usage := some sampleUsage }

/-- Witness for C8: a manager event with a usage record missing its
completion field increments the manager counters by the present fields and
leaves the quant counters alone. -/
theorem token_counters_monotone_witness :
    managerEvent.usage = some sampleUsage ∧
    managerEvent.source = "manager" ∧
    ((onMessage initialHookState "t" (.agentEvent managerEvent)).1.tokenCounts.manager
        = addUsage initialHookState.tokenCounts.manager sampleUsage ∧
      (onMessage initialHookState "t" (.agentEvent managerEvent)).1.tokenCounts.quant
        = initialHookState.tokenCounts.quant) :=
  ⟨by decide, by decide,
    (token_counters_monotone initialHookState "t" (.agentEvent managerEvent)
        managerEvent sampleUsage zeroCounts).2.2.2.1 (by decide) (by decide)⟩

end UseAgent

namespace UseAgent

theorem pairwise_const_le {β : Type} (k : Int) (l : List β) :
    List.Pairwise (fun (x y : Int) => x ≤ y) (l.map (fun _ => k)) := by
  induction l with
  | nil => simp
  | cons b bs ih =>
    simp only [List.map_cons, List.pairwise_cons]
    refine ⟨?_, ih⟩
    intro y hy
    obtain ⟨_, _, rfl⟩ := List.mem_map.mp hy
    exact le_refl k

theorem sorted_flatMap_const_key {α β : Type} (key : α → Int) (f : α → List β)
    (l : List α) (h : l.Pairwise (fun a b => key a ≤ key b)) :
    List.Pairwise (fun (x y : Int) => x ≤ y)
      (l.flatMap (fun a => (f a).map (fun _ => key a))) := by
  induction l with
  | nil => simp
  | cons a rest ih =>
    rw [List.flatMap_cons, List.pairwise_append]
    rcases List.pairwise_cons.mp h with ⟨hhead, htail⟩
    refine ⟨pairwise_const_le (key a) (f a), ih htail, ?_⟩
    intro x hx y hy
    obtain ⟨_, _, rfl⟩ := List.mem_map.mp hx
    obtain ⟨b, hb, hyin⟩ := List.mem_flatMap.mp hy
    obtain ⟨_, _, rfl⟩ := List.mem_map.mp hyin
    exact hhead b hb

theorem sortCycles_pairwise (cycles : List SessionCycle) :
    List.Pairwise (fun a b => a.cycle_number ≤ b.cycle_number) (sortCycles cycles) := by
  have h := @List.sorted_mergeSort SessionCycle
    (fun a b => decide (a.cycle_number ≤ b.cycle_number))
    (fun a b c hab hbc => by
      simp only [decide_eq_true_eq] at hab hbc ⊢
      omega)
    (fun a b => by
      simp only [Bool.or_eq_true, decide_eq_true_eq]
      omega)
    cycles
  exact h.imp (fun hab => by simpa using hab)

/-- C5: `loadSession` sorts a stored session's cycles by ascending
`cycle_number` (keeping them all) before concatenating their events, so the
resulting event list is ordered by cycle sequence number: tagging each
output event with the `cycle_number` of the cycle it came from yields a
non-decreasing tag sequence. -/
theorem loadSession_events_ordered_by_cycle (now : String) (cycles : List SessionCycle) :
    (sortCycles cycles).Perm cycles ∧
    List.Pairwise (fun a b => a.cycle_number ≤ b.cycle_number) (sortCycles cycles) ∧
    loadSessionEvents now cycles
      = ((sortCycles cycles).flatMap
          (fun c => c.events.map (fun e => (c.cycle_number, polyfillTs now e)))).map Prod.snd ∧
    List.Pairwise (fun (x y : Int) => x ≤ y)
      (((sortCycles cycles).flatMap
          (fun c => c.events.map (fun e => (c.cycle_number, polyfillTs now e)))).map Prod.fst) := by
  refine ⟨List.mergeSort_perm cycles _, sortCycles_pairwise cycles, ?_, ?_⟩
  · rw [List.map_flatMap]
    unfold loadSessionEvents
    congr 1
    funext c
    rw [List.map_map]
    rfl
  · rw [List.map_flatMap]
    have heq : (fun (c : SessionCycle) =>
        (c.events.map (fun e => (c.cycle_number, polyfillTs now e))).map Prod.fst)
        = fun c => c.events.map (fun _ => c.cycle_number) := by
      funext c
      rw [List.map_map]
      rfl
    rw [heq]
    exact sorted_flatMap_const_key (fun c => c.cycle_number) (fun c => c.events)
      (sortCycles cycles) (sortCycles_pairwise cycles)

end UseAgent

namespace LivePage

/-- `AuditEvent` from `src/frontend/src/api/types.ts`. -/
structure AuditEvent where
  idOpt : Option String
  timestamp : String
  event_type : String
  agent_id : Option String
  payload : List (String × String)
deriving DecidableEq

/-- The `LivePage` state slices the claims are about: the audit tail, the
live events feed and the last-audit timestamp. -/
structure LiveState where
  audit : List AuditEvent
  liveEvents : List AuditEvent
  lastAuditTs : Option String
deriving DecidableEq

/-- JS `Array.prototype.slice(-n)`: the last `n` elements. -/
def sliceLast {α : Type} (n : Nat) (l : List α) : List α :=
  l.drop (l.length - n)

/-- The `ws.onmessage` branch for `type === "event"` in the live page
(`src/unnamed/part_004:401-409`): append the event to the audit tail capped
at 300, prepend it to the live feed capped at 200, and set the last-audit
timestamp to `e.timestamp || null`. -/
def handleLiveEvent (s : LiveState) (e : AuditEvent) : LiveState :=
  { audit := sliceLast 300 (s.audit ++ [e]),
    liveEvents := (e :: s.liveEvents).take 200,
    lastAuditTs := if e.timestamp = "" then none else some e.timestamp }

/-- `backfill` (`src/unnamed/part_004:283-297`): when the `/audit` request
returns events, replace the tail with the last 300 of them, the live feed
with the newest 200 reversed to newest-first, and the last-audit timestamp
with the final event's. -/
def backfill (s : LiveState) (es : List AuditEvent) : LiveState :=
  if es.isEmpty then s
  else
    { audit := sliceLast 300 es,
      liveEvents := es.reverse.take 200,
      lastAuditTs :=
        match es.getLast? with
        | some e => if e.timestamp = "" then none else some e.timestamp
        | none => none }

/-- The `since_ts` query parameter `withQuery` actually sends: `null`,
`undefined` and `""` values are dropped (`src/unnamed/part_004:26-34`). -/
def sinceParamSent (since : Option String) : Option String :=
  match since with
  | some t => if t = "" then none else some t
  | none => none

/-- The polling cursor's initial value (`src/unnamed/part_004:313`): the
timestamp of the last audit event already on screen. -/
def initSince (audit : List AuditEvent) : Option String :=
  audit.getLast?.map (fun e => e.timestamp)

/-- One polling `tick` (`src/unnamed/part_004:317-338`) applied to the
cursor and the page state, given the events the `/audit` query returned:
on a non-empty response, advance the cursor to the last event's timestamp,
append the events to the capped audit tail and prepend them to the capped
live feed. -/
def tick (since : Option String) (s : LiveState) (es : List AuditEvent) :
    Option String × LiveState :=
  if es.isEmpty then (since, s)
  else
    (match es.getLast? with
      | some last => if last.timestamp = "" then since else some last.timestamp
      | none => since,
      { s with
        audit := sliceLast 300 (s.audit ++ es),
        liveEvents := (es ++ s.liveEvents).take 200 })

/-- The three operations that mutate the audit/live lists on the page. -/
inductive LiveOp where
  | backfillOp (es : List AuditEvent)
  | pollTick (es : List AuditEvent)
  | wsEvent (e : AuditEvent)

/-- One page operation applied to the polling cursor and the page state. -/
def stepLive : Option String × LiveState → LiveOp → Option String × LiveState
  | (since, s), .backfillOp es => (since, backfill s es)
  | (since, s), .pollTick es => tick since s es
  | (since, s), .wsEvent e => (since, handleLiveEvent s e)

/-- The page's initial state: empty lists, no cursor. -/
def initLive : Option String × LiveState :=
  (none, { audit := [], liveEvents := [], lastAuditTs := none })

/-- Fold of the page operations from the initial state. -/
def runLive (ops : List LiveOp) : Option String × LiveState :=
  ops.foldl stepLive initLive

theorem sliceLast_length_le {α : Type} (n : Nat) (l : List α) :
    (sliceLast n l).length ≤ n := by
  unfold sliceLast
  rw [List.length_drop]
  omega

theorem sliceLast_suffix {α : Type} (n : Nat) (l : List α) :
    sliceLast n l <:+ l :=
  List.drop_suffix _ l

theorem sliceLast_append_of_le {α : Type} (xs ys : List α) (h : ys.length ≤ 300) :
    ∃ pre, pre <:+ xs ∧ sliceLast 300 (xs ++ ys) = pre ++ ys := by
  refine ⟨xs.drop ((xs ++ ys).length - 300), List.drop_suffix _ xs, ?_⟩
  unfold sliceLast
  rw [List.drop_append_eq_append_drop]
  have hle : (xs ++ ys).length - 300 - xs.length = 0 := by
    rw [List.length_append]
    omega
  rw [hle, List.drop_zero]

/-- C6: a live `event` message appends exactly one audit event to the end
of the (capped) audit tail, prepends exactly one entry to the (capped)
live events feed, and sets the last-audit timestamp to that event's
timestamp. -/
theorem live_event_append_prepend_sets_ts (s : LiveState) (e : AuditEvent)
    (h : e.timestamp ≠ "") :
    (∃ pre, pre <:+ s.audit ∧ (handleLiveEvent s e).audit = pre ++ [e]) ∧
    (handleLiveEvent s e).liveEvents = e :: s.liveEvents.take 199 ∧
    (handleLiveEvent s e).lastAuditTs = some e.timestamp := by
  simp only [handleLiveEvent]
  refine ⟨sliceLast_append_of_le s.audit [e] (by simp), ?_, ?_⟩
  · rw [show (200 : Nat) = 199 + 1 from rfl, List.take_succ_cons]
  · rw [if_neg h]

/-- Concrete audit event for the C6 witness. -/
def sampleAuditEvent : AuditEvent :=
  { idOpt := none, timestamp := "2025-01-01T00:00:00Z", event_type := "transition",
    agent_id := none, payload := [] }

/-- Witness for C6 on the empty page state. -/
theorem live_event_append_prepend_sets_ts_witness :
    sampleAuditEvent.timestamp ≠ "" ∧
    ((∃ pre, pre <:+ ({ audit := [], liveEvents := [], lastAuditTs := none } : LiveState).audit ∧
        (handleLiveEvent { audit := [], liveEvents := [], lastAuditTs := none }
          sampleAuditEvent).audit = pre ++ [sampleAuditEvent]) ∧
      (handleLiveEvent { audit := [], liveEvents := [], lastAuditTs := none }
          sampleAuditEvent).liveEvents
        = sampleAuditEvent ::
            ({ audit := [], liveEvents := [], lastAuditTs := none } : LiveState).liveEvents.take 199 ∧
      (handleLiveEvent { audit := [], liveEvents := [], lastAuditTs := none }
          sampleAuditEvent).lastAuditTs = some sampleAuditEvent.timestamp) :=
  ⟨by decide,
    live_event_append_prepend_sets_ts { audit := [], liveEvents := [], lastAuditTs := none }
      sampleAuditEvent (by decide)⟩

/-- C7: in polling mode the `/audit` query is sent with `since_ts` equal to
the cursor (the most recently seen timestamp), a non-empty response is
appended to the audit tail in received order, and the cursor advances to
the newest returned event's timestamp — which is then the timestamp of the
newest event held. -/
theorem tick_polls_after_cursor (since : Option String) (s : LiveState)
    (es : List AuditEvent) (t : String) (last : AuditEvent)
    (h1 : since = some t) (h2 : t ≠ "")
    (h3 : es.getLast? = some last) (h4 : last.timestamp ≠ "")
    (h5 : es.length ≤ 300) :
    sinceParamSent since = some t ∧
    (∃ pre, pre <:+ s.audit ∧ (tick since s es).2.audit = pre ++ es) ∧
    (tick since s es).1 = some last.timestamp ∧
    (tick since s es).2.audit.getLast? = some last := by
  have hne : es ≠ [] := by
    intro hnil
    rw [hnil] at h3
    simp at h3
  have hempty : es.isEmpty = false := by
    rw [← Bool.not_eq_true, List.isEmpty_iff]
    exact hne
  obtain ⟨pre, hpre, heq⟩ := sliceLast_append_of_le s.audit es h5
  refine ⟨?_, ⟨pre, hpre, ?_⟩, ?_, ?_⟩
  · rw [h1]
    simp only [sinceParamSent]
    rw [if_neg h2]
  · simp only [tick, hempty, Bool.false_eq_true, if_false]
    exact heq
  · simp only [tick, hempty, Bool.false_eq_true, if_false, h3]
    rw [if_neg h4]
  · simp only [tick, hempty, Bool.false_eq_true, if_false]
    rw [heq, List.getLast?_append, h3]
    rfl

/-- Concrete audit event for the C7 witness. -/
def polledAuditEvent : AuditEvent :=
  { idOpt := none, timestamp := "2025-01-01T00:05:00Z", event_type := "pnl_report",
    agent_id := some "manager", payload := [] }

/-- Witness for C7: one poll with cursor "a" returning one event. -/
theorem tick_polls_after_cursor_witness :
    (some "a" : Option String) = some "a" ∧ "a" ≠ "" ∧
    [polledAuditEvent].getLast? = some polledAuditEvent ∧
    polledAuditEvent.timestamp ≠ "" ∧
    [polledAuditEvent].length ≤ 300 ∧
    (sinceParamSent (some "a") = some "a" ∧
      (∃ pre, pre <:+ ({ audit := [], liveEvents := [], lastAuditTs := none } : LiveState).audit ∧
        (tick (some "a") { audit := [], liveEvents := [], lastAuditTs := none }
            [polledAuditEvent]).2.audit = pre ++ [polledAuditEvent]) ∧
      (tick (some "a") { audit := [], liveEvents := [], lastAuditTs := none }
          [polledAuditEvent]).1 = some polledAuditEvent.timestamp ∧
      (tick (some "a") { audit := [], liveEvents := [], lastAuditTs := none }
          [polledAuditEvent]).2.audit.getLast? = some polledAuditEvent) :=
  ⟨rfl, by decide, by decide, by decide, by decide,
    tick_polls_after_cursor (some "a") { audit := [], liveEvents := [], lastAuditTs := none }
      [polledAuditEvent] "a" polledAuditEvent rfl (by decide) (by decide) (by decide) (by decide)⟩

set_option maxRecDepth 4000 in
theorem liveBounds_run (ops : List LiveOp) :
    (runLive ops).2.audit.length ≤ 300 ∧ (runLive ops).2.liveEvents.length ≤ 200 := by
  have step : ∀ (p : Option String × LiveState) (op : LiveOp),
      p.2.audit.length ≤ 300 ∧ p.2.liveEvents.length ≤ 200 →
      (stepLive p op).2.audit.length ≤ 300 ∧ (stepLive p op).2.liveEvents.length ≤ 200 := by
    intro ⟨since, s⟩ op h
    cases op with
    | backfillOp es =>
      simp only [stepLive, backfill]
      by_cases hemp : es.isEmpty
      · rw [if_pos hemp]; exact h
      · rw [if_neg hemp]
        constructor
        · exact sliceLast_length_le 300 es
        · rw [List.length_take]; omega
    | pollTick es =>
      simp only [stepLive, tick]
      by_cases hemp : es.isEmpty
      · rw [if_pos hemp]; exact h
      · rw [if_neg hemp]
        constructor
        · exact sliceLast_length_le 300 _
        · rw [List.length_take]; omega
    | wsEvent e =>
      simp only [stepLive, handleLiveEvent]
      constructor
      · exact sliceLast_length_le 300 _
      · rw [List.length_take]; omega
  have main : ∀ (l : List LiveOp) (p : Option String × LiveState),
      p.2.audit.length ≤ 300 ∧ p.2.liveEvents.length ≤ 200 →
      (l.foldl stepLive p).2.audit.length ≤ 300 ∧
        (l.foldl stepLive p).2.liveEvents.length ≤ 200 := by
    intro l
    induction l with
    | nil => intro p hp; exact hp
    | cons op rest ih => intro p hp; exact ih _ (step p op hp)
  exact main ops initLive ⟨by simp [initLive], by simp [initLive]⟩

/-- C9: after every backfill, polling update and live WebSocket event, the
audit tail holds at most 300 events and the live feed at most 200 — over
any operation trace from the initial page state — and each operation
retains the most recent events: the new audit tail is a suffix of the data
it was cut from, the new live feed a prefix of the newest-first data. -/
theorem audit_live_lists_bounded (ops : List LiveOp) (since : Option String)
    (s : LiveState) (es : List AuditEvent) (e : AuditEvent) (hes : es ≠ []) :
    (runLive ops).2.audit.length ≤ 300 ∧
    (runLive ops).2.liveEvents.length ≤ 200 ∧
    (backfill s es).audit <:+ es ∧
    (backfill s es).liveEvents <+: es.reverse ∧
    (tick since s es).2.audit <:+ s.audit ++ es ∧
    (handleLiveEvent s e).audit <:+ s.audit ++ [e] ∧
    (handleLiveEvent s e).liveEvents <+: e :: s.liveEvents := by
  have hempty : es.isEmpty = false := by
    rw [← Bool.not_eq_true, List.isEmpty_iff]
    exact hes
  obtain ⟨hb1, hb2⟩ := liveBounds_run ops
  refine ⟨hb1, hb2, ?_, ?_, ?_, ?_, ?_⟩
  · simp only [backfill, hempty, Bool.false_eq_true, if_false]
    exact sliceLast_suffix 300 es
  · simp only [backfill, hempty, Bool.false_eq_true, if_false]
    exact List.take_prefix 200 es.reverse
  · simp only [tick, hempty, Bool.false_eq_true, if_false]
    exact sliceLast_suffix 300 _
  · simp only [handleLiveEvent]
    exact sliceLast_suffix 300 _
  · simp only [handleLiveEvent]
    exact List.take_prefix 200 _

/-- Witness for C9 at a concrete one-event trace and one-event inputs. -/
theorem audit_live_lists_bounded_witness :
    ([sampleAuditEvent] : List AuditEvent) ≠ [] ∧
    ((runLive [LiveOp.wsEvent sampleAuditEvent]).2.audit.length ≤ 300 ∧
      (runLive [LiveOp.wsEvent sampleAuditEvent]).2.liveEvents.length ≤ 200 ∧
      (backfill { audit := [], liveEvents := [], lastAuditTs := none }
          [sampleAuditEvent]).audit <:+ [sampleAuditEvent] ∧
      (backfill { audit := [], liveEvents := [], lastAuditTs := none }
          [sampleAuditEvent]).liveEvents <+: ([sampleAuditEvent] : List AuditEvent).reverse ∧
      (tick none { audit := [], liveEvents := [], lastAuditTs := none }
          [sampleAuditEvent]).2.audit
        <:+ ({ audit := [], liveEvents := [], lastAuditTs := none } : LiveState).audit
              ++ [sampleAuditEvent] ∧
      (handleLiveEvent { audit := [], liveEvents := [], lastAuditTs := none }
          sampleAuditEvent).audit
        <:+ ({ audit := [], liveEvents := [], lastAuditTs := none } : LiveState).audit
              ++ [sampleAuditEvent] ∧
      (handleLiveEvent { audit := [], liveEvents := [], lastAuditTs := none }
          sampleAuditEvent).liveEvents
        <+: sampleAuditEvent ::
              ({ audit := [], liveEvents := [], lastAuditTs := none } : LiveState).liveEvents) :=
  ⟨by decide,
    audit_live_lists_bounded [LiveOp.wsEvent sampleAuditEvent] none
      { audit := [], liveEvents := [], lastAuditTs := none }
      [sampleAuditEvent] sampleAuditEvent (by decide)⟩

end LivePage
